import Mathlib

/-!
Verification of the sentence-annotation pipeline of `reynir_correct/checker.py`
(GreynirCorrect), together with the static verb/subject-case predicates of
`ErrorDetectionToken` and the lock-guarded parser/reducer singleton accessor.

External collaborators (the `reynir` package: ICELANDIC_RATIO, correct_spaces,
VerbSubjects; the downstream annotation engines ErrorFinder / PatternMatcher)
are modelled as parameters, bundled in `Env` or passed explicitly.
-/

namespace ReynirCorrect

/-- Python substring test `sub in s`, character-exact, no normalization. -/
def strContains (s sub : String) : Bool :=
  decide (sub.data <:+: s.data)

/-- Token kinds distinguished by the `annotate` scan: `TOK.WORD`,
`TOK.PERSON`, and everything else (punctuation, numbers, ...). -/
inductive TokKind where
  | word
  | person
  | other
deriving DecidableEq

/-- One token of a sentence, as seen by `GreynirCorrect.annotate`.
`val` is the number of lexicon meanings (`t.val`, a list in Python, whose
truthiness the code tests); `isCorrect` models `isinstance(t, CorrectToken)`;
`hasErrorAttr` models `hasattr(t, "error_code")`.  Modelled from the spec:
the error metadata fields (code / span / description) of `CorrectToken`
(errtokenizer.py, not under src/) follow the spec's token data model. -/
structure Token where
  kind : TokKind
  txt : String
  val : Nat
  isCorrect : Bool
  hasErrorAttr : Bool
  errorCode : String
  errorSpan : Nat
  errorDescription : String
deriving DecidableEq

/-- The `detail` payload of an annotation.  The `e004` and `e001`
constructors stand for the two Icelandic format strings of checker.py
applied to their arguments: `e004 pct` for the "percentage of words not in
the dictionary" message, `e001 num txt` for the "parse failed around token
num ('txt')" message; `other` covers details produced by external engines. -/
inductive Detail where
  | none
  | e004 (pct : ℚ)
  | e001 (tokenNum : Nat) (toktext : String)
  | other (s : String)
deriving DecidableEq

/-- Modelled from the spec: the `Annotation` value object of annotation.py
(not under src/): `{start, end, code, text, detail}` with inclusive token
indices; the Python attribute `end` is called `endTok` (`end` is reserved
in Lean). -/
structure Annot where
  start : Int
  endTok : Int
  code : String
  text : String
  detail : Detail
deriving DecidableEq

/-- A sentence as consumed by `annotate`: its token list, an optional deep
parse tree (only presence matters to the code shown), and the parser's
error index when parsing failed. -/
structure Sentence where
  tokens : List Token
  deepTree : Option Unit
  errIndex : Option Nat
deriving DecidableEq

/-- External collaborators of `annotate`, passed as parameters:
`ratioMin` is the imported constant ICELANDIC_RATIO; `correctSpaces` is
reynir's `correct_spaces`; `errorFinder` and `patternMatcher` are, modelled
from the spec, the two engines of errfinder.py / pattern.py (not under
src/): each is invoked on (annotation list so far, sentence) and returns
the annotations it appends. -/
structure Env where
  ratioMin : ℚ
  correctSpaces : String → String
  errorFinder : List Annot → Sentence → List Annot
  patternMatcher : List Annot → Sentence → List Annot

/-- Accumulator of the token-scan loop of `annotate`. -/
structure ScanState where
  ann : List Annot
  wordsInBin : Nat
  wordsNotInBin : Nat
deriving DecidableEq

/-- Message of the failed `assert isinstance(t, CorrectToken)`. -/
def assertMsg : String :=
  "token exposes error_code but is not a CorrectToken"

/-- The token-level annotation for an error-carrying token at index `ix`:
spans `[ix, ix + error_span - 1]` with the token's code and description. -/
def tokErrAnnot (ix : Nat) (t : Token) : Annot :=
  ⟨(ix : Int), (ix : Int) + (t.errorSpan : Int) - 1, t.errorCode,
    t.errorDescription, Detail.none⟩

/-- One iteration of the token scan of `annotate` (checker.py lines
253-277): update the recognized / unrecognized word counters, then emit a
token-level annotation if the token carries a non-empty error code; a token
exposing `error_code` without being a CorrectToken fails the assert. -/
def scanStep (ix : Nat) (t : Token) (st : ScanState) : Except String ScanState :=
  let st' :=
    match t.kind with
    | TokKind.word =>
        if t.val ≠ 0 then { st with wordsInBin := st.wordsInBin + 1 }
        else { st with wordsNotInBin := st.wordsNotInBin + 1 }
    | TokKind.person => { st with wordsInBin := st.wordsInBin + 1 }
    | TokKind.other => st
  if t.hasErrorAttr then
    if t.isCorrect then
      if t.errorCode ≠ "" then
        Except.ok { st' with ann := st'.ann ++ [tokErrAnnot ix t] }
      else Except.ok st'
    else Except.error assertMsg
  else Except.ok st'

/-- The token-scan loop of `annotate`, indexed from `ix`. -/
def scanLoop : Nat → List Token → ScanState → Except String ScanState
  | _, [], st => Except.ok st
  | ix, t :: ts, st =>
    match scanStep ix t st with
    | Except.ok st' => scanLoop (ix + 1) ts st'
    | Except.error e => Except.error e

/-- Contribution of one token to `words_in_bin`: a WORD token with at least
one meaning, or a PERSON token, counts as recognized. -/
def wibOne (t : Token) : Nat :=
  match t.kind with
  | TokKind.word => if t.val ≠ 0 then 1 else 0
  | TokKind.person => 1
  | TokKind.other => 0

/-- Contribution of one token to `words_not_in_bin`: a WORD token with no
meaning counts as unrecognized. -/
def wnbOne (t : Token) : Nat :=
  match t.kind with
  | TokKind.word => if t.val = 0 then 1 else 0
  | TokKind.person => 0
  | TokKind.other => 0

/-- Count of recognized word-like tokens (`words_in_bin`). -/
def wordsInBinCount : List Token → Nat
  | [] => 0
  | t :: ts => wibOne t + wordsInBinCount ts

/-- Count of unrecognized word-like tokens (`words_not_in_bin`). -/
def wordsNotInBinCount : List Token → Nat
  | [] => 0
  | t :: ts => wnbOne t + wordsNotInBinCount ts

/-- The token-level annotations produced by the scan, indexed from `ix`. -/
def scanAnnotsFrom : Nat → List Token → List Annot
  | _, [] => []
  | ix, t :: ts =>
    (if t.hasErrorAttr ∧ t.errorCode ≠ "" then [tokErrAnnot ix t] else [])
      ++ scanAnnotsFrom (ix + 1) ts

/-- The token-level annotations of a sentence. -/
def scanAnnots (s : Sentence) : List Annot :=
  scanAnnotsFrom 0 s.tokens

/-- Upstream contract: every token exposing error metadata is a
CorrectToken, so the scan's assert never fires. -/
def WellFormed (s : Sentence) : Prop :=
  ∀ t ∈ s.tokens, t.hasErrorAttr = true → t.isCorrect = true

instance (s : Sentence) : Decidable (WellFormed s) :=
  List.decidableBAll _ s.tokens

/-- `num_words`: total of word-like tokens. -/
def numWords (s : Sentence) : Nat :=
  wordsInBinCount s.tokens + wordsNotInBinCount s.tokens

/-- The foreign-language guard (checker.py line 280):
`num_words > 2 and words_in_bin / num_words < ICELANDIC_RATIO`. -/
def e004Cond (env : Env) (s : Sentence) : Prop :=
  2 < numWords s ∧
    (wordsInBinCount s.tokens : ℚ) / (numWords s : ℚ) < env.ratioMin

instance (env : Env) (s : Sentence) : Decidable (e004Cond env s) :=
  instDecidableAnd

/-- The parse-failure path guard: E004 did not fire, no deep tree. -/
def e001Path (env : Env) (s : Sentence) : Prop :=
  ¬e004Cond env s ∧ s.deepTree = Option.none

/-- The successful-parse path guard: E004 did not fire, deep tree present. -/
def successPath (env : Env) (s : Sentence) : Prop :=
  ¬e004Cond env s ∧ s.deepTree ≠ Option.none

/-- Text of the E004 annotation. -/
def e004Text : String := "Málsgreinin er sennilega ekki á íslensku"

/-- Text of the E001 annotation. -/
def e001Text : String := "Málsgreinin fellur ekki að reglum"

/-- The single whole-sentence E004 annotation: spans tokens 0 through
`len - 1`, detail reports `words_not_in_bin / num_words * 100`. -/
def e004Annot (s : Sentence) : Annot :=
  ⟨0, (s.tokens.length : Int) - 1, "E004", e004Text,
    Detail.e004 ((wordsNotInBinCount s.tokens : ℚ) / (numWords s : ℚ) * 100)⟩

/-- Python `sent.err_index or 0`: both None and 0 are falsy and yield 0. -/
def pyOrZero : Option Nat → Nat
  | Option.none => 0
  | Option.some n => if n = 0 then 0 else n

/-- `err_index` as used by the E001 path. -/
def errIndexVal (s : Sentence) : Nat :=
  pyOrZero s.errIndex

/-- `start = max(0, err_index - 1)` (Nat subtraction truncates exactly as
the Python `max` with non-negative `err_index`). -/
def e001WindowStart (s : Sentence) : Nat :=
  max 0 (errIndexVal s - 1)

/-- `end = min(len(sent.tokens), err_index + 2)`. -/
def e001WindowStop (s : Sentence) : Nat :=
  min s.tokens.length (errIndexVal s + 2)

/-- The token window `sent.tokens[start:end]` quoted by the E001 detail. -/
def e001Window (s : Sentence) : List Token :=
  (s.tokens.drop (e001WindowStart s)).take (e001WindowStop s - e001WindowStart s)

/-- `" ".join(t.txt for t in sent.tokens[start:end] if t.txt)`. -/
def e001JoinedText (s : Sentence) : String :=
  String.intercalate " " (((e001Window s).filter fun t => t.txt != "").map Token.txt)

/-- The whole-sentence E001 annotation: spans tokens 0 through `len - 1`,
detail reports position `err_index + 1` and the space-normalized window
text. -/
def e001Annot (env : Env) (s : Sentence) : Annot :=
  ⟨0, (s.tokens.length : Int) - 1, "E001", e001Text,
    Detail.e001 (errIndexVal s + 1) (env.correctSpaces (e001JoinedText s))⟩

/-- The comparison used to sort the final list: Python
`ann.sort(key=lambda a: (a.start, -a.end))`, i.e. ascending start,
ties broken by descending end. -/
def annLE (a b : Annot) : Bool :=
  decide (a.start < b.start ∨ (a.start = b.start ∧ b.endTok ≤ a.endTok))

/-- The complete annotation list accumulated by `annotate` before the final
sort, by path: E004 discards the scan annotations; E001 appends one
whole-sentence annotation; the success path lets the two external engines
append theirs. -/
def collected (env : Env) (s : Sentence) : List Annot :=
  if e004Cond env s then [e004Annot s]
  else if s.deepTree = Option.none then scanAnnots s ++ [e001Annot env s]
  else
    let a1 := scanAnnots s ++ env.errorFinder (scanAnnots s) s
    a1 ++ env.patternMatcher a1 s

/-- `GreynirCorrect.annotate` (checker.py lines 246-327): token scan, then
the foreign-language guard, the parse-failure guard or the successful-parse
path, then the final sort.  A failed scan assert propagates. -/
def annotate (env : Env) (sent : Sentence) : Except String (List Annot) :=
  match scanLoop 0 sent.tokens ⟨[], 0, 0⟩ with
  | Except.error e => Except.error e
  | Except.ok st =>
    let nw := st.wordsInBin + st.wordsNotInBin
    let ann :=
      if 2 < nw ∧ (st.wordsInBin : ℚ) / (nw : ℚ) < env.ratioMin then
        [⟨0, (sent.tokens.length : Int) - 1, "E004", e004Text,
          Detail.e004 ((st.wordsNotInBin : ℚ) / (nw : ℚ) * 100)⟩]
      else if sent.deepTree = Option.none then
        let errIndex := pyOrZero sent.errIndex
        let start := max 0 (errIndex - 1)
        let stop := min sent.tokens.length (errIndex + 2)
        let toktext := env.correctSpaces (String.intercalate " "
          ((((sent.tokens.drop start).take (stop - start)).filter
            fun t => t.txt != "").map Token.txt))
        st.ann ++ [⟨0, (sent.tokens.length : Int) - 1, "E001", e001Text,
          Detail.e001 (errIndex + 1) toktext⟩]
      else
        let a1 := st.ann ++ env.errorFinder st.ann sent
        a1 ++ env.patternMatcher a1 sent
    Except.ok (ann.mergeSort annLE)

/-- Spec contract on the external engines: ErrorFinder emits E002-coded
annotations and PatternMatcher pattern codes; neither ever emits the
E004 code owned by the foreign-language guard. -/
def HookCodesOk (env : Env) : Prop :=
  (∀ ann s, ∀ a ∈ env.errorFinder ann s, a.code ≠ "E004") ∧
  (∀ ann s, ∀ a ∈ env.patternMatcher ann s, a.code ≠ "E004")

/-- `ErrorDetectionToken.verb_is_strictly_impersonal` (checker.py lines
106-121).  The parameter `isStrictlyImpersonal` is the external predicate
`VerbSubjects.is_strictly_impersonal` of the reynir package; per the
source's comments it holds exactly when an erroneous-subject-case
correction from nominative to another case is registered for the verb. -/
def verb_is_strictly_impersonal (isStrictlyImpersonal : String → Bool)
    (verb form : String) : Bool :=
  if strContains form "OP" && !isStrictlyImpersonal verb then true
  else false

/-- `ErrorDetectionToken.verb_cannot_be_impersonal` (checker.py lines
123-132): `any(f in form for f in ("BH", "NH", "FT"))`. -/
def verb_cannot_be_impersonal (verb form : String) : Bool :=
  ["BH", "NH", "FT"].any fun f => strContains form f

/-- Python `dict.get(key, set())` over an association-list model of the
verb-subject tables. -/
def dictGet (d : List (String × List String)) (k : String) : List String :=
  match d.find? (fun p => p.1 == k) with
  | Option.some p => p.2
  | Option.none => []

/-- `ErrorDetectionToken.verb_subject_matches` (checker.py lines 140-147):
the subject case is in the verb's accepted set (`_VERB_SUBJECTS`) or its
known-erroneous set (`_VERB_ERROR_SUBJECTS`); both tables are external
static data of the reynir package, passed as parameters. -/
def verb_subject_matches (verbSubjects verbErrorSubjects : List (String × List String))
    (verb subj : String) : Bool :=
  (dictGet verbSubjects verb).contains subj
    || (dictGet verbErrorSubjects verb).contains subj

/-!
The `GreynirCorrect.parser` accessor (checker.py lines 224-236): the whole
body runs under `self._lock`, so we render it as a small-step interleaving
system in which each thread acquires the lock, performs the staleness
check, possibly constructs the parser+reducer pair, and releases the lock;
only the lock holder can take the in-critical-section steps.  Parser
instances are identified by the construction counter value at creation.
-/

/-- Program counter of one thread calling the `parser` accessor. -/
inductive ThreadPC where
  | ready
  | inCrit
  | building
  | releasing (v : Nat)
  | done (v : Nat)
deriving DecidableEq

/-- Shared state: the lock holder, the singleton parser instance (by id),
the id for the next construction, the number of constructions performed so
far, and each thread's program counter. -/
structure SysState (n : Nat) where
  lock : Option (Fin n)
  parser : Option Nat
  nextId : Nat
  built : Nat
  pc : Fin n → ThreadPC

/-- A thread in one of these states holds the lock. -/
def holdsLock : ThreadPC → Bool
  | ThreadPC.inCrit => true
  | ThreadPC.building => true
  | ThreadPC.releasing _ => true
  | _ => false

/-- The rebuild condition of the accessor:
`GreynirCorrect._parser is None or GreynirCorrect._parser.is_grammar_modified()[0]`. -/
def staleCond (isMod : Nat → Bool) (p : Option Nat) : Prop :=
  p = Option.none ∨ ∃ q, p = Option.some q ∧ isMod q = true

/-- Interleaving semantics of N threads running the accessor body.
`isMod` is the external grammar-staleness signal per instance. -/
inductive Step {n : Nat} (isMod : Nat → Bool) : SysState n → SysState n → Prop where
  | acquire {s : SysState n} (i : Fin n)
      (hpc : s.pc i = ThreadPC.ready) (hl : s.lock = Option.none) :
      Step isMod s { s with lock := Option.some i,
                            pc := Function.update s.pc i ThreadPC.inCrit }
  | checkBuild {s : SysState n} (i : Fin n)
      (hpc : s.pc i = ThreadPC.inCrit) (hl : s.lock = Option.some i)
      (hstale : staleCond isMod s.parser) :
      Step isMod s { s with pc := Function.update s.pc i ThreadPC.building }
  | checkReuse {s : SysState n} (i : Fin n) (p : Nat)
      (hpc : s.pc i = ThreadPC.inCrit) (hl : s.lock = Option.some i)
      (hp : s.parser = Option.some p) (hmod : isMod p = false) :
      Step isMod s { s with pc := Function.update s.pc i (ThreadPC.releasing p) }
  | build {s : SysState n} (i : Fin n)
      (hpc : s.pc i = ThreadPC.building) (hl : s.lock = Option.some i) :
      Step isMod s { s with parser := Option.some s.nextId,
                            nextId := s.nextId + 1,
                            built := s.built + 1,
                            pc := Function.update s.pc i (ThreadPC.releasing s.nextId) }
  | release {s : SysState n} (i : Fin n) (v : Nat)
      (hpc : s.pc i = ThreadPC.releasing v) (hl : s.lock = Option.some i) :
      Step isMod s { s with lock := Option.none,
                            pc := Function.update s.pc i (ThreadPC.done v) }

/-- Initial state for N first-time callers: no instance, nothing built. -/
def init (n : Nat) : SysState n :=
  ⟨Option.none, Option.none, 0, 0, fun _ => ThreadPC.ready⟩

/-- Staleness signal of a never-modified grammar (the first-call
scenario). -/
def neverMod : Nat → Bool := fun _ => false

/-- Lock discipline: only the lock holder is inside the critical
section. -/
def LockInv {n : Nat} (s : SysState n) : Prop :=
  ∀ i : Fin n, holdsLock (s.pc i) = true → s.lock = Option.some i

/-- Invariant of runs with an unmodified grammar: construction happens
only while the singleton is absent, every finished caller saw the current
singleton, and the construction count is 0 before and 1 after. -/
structure BuildInv {n : Nat} (s : SysState n) : Prop where
  lockOwner : LockInv s
  buildingNone : ∀ i, s.pc i = ThreadPC.building → s.parser = Option.none
  releasingVal : ∀ i v, s.pc i = ThreadPC.releasing v → s.parser = Option.some v
  doneVal : ∀ i v, s.pc i = ThreadPC.done v → s.parser = Option.some v
  builtNone : s.parser = Option.none → s.built = 0
  builtSome : ∀ p, s.parser = Option.some p → s.built = 1

/-- The accessor's contract for N threads: (1) in a first-call run with an
unmodified grammar, when every caller has finished, exactly one
construction happened and all callers got the same instance; (2) at most
one thread is ever mid-construction; (3) a thread moves from the check to
construction only if no instance exists or the instance is stale; (4) the
check does move to construction whenever that condition holds, and (5)
reuses the existing instance whenever it does not. -/
def GetParserContract (n : Nat) : Prop :=
  (∀ s : SysState n, Relation.ReflTransGen (Step neverMod) (init n) s →
    (∀ i, ∃ v, s.pc i = ThreadPC.done v) →
    s.built = 1 ∧ ∃ p, ∀ i, s.pc i = ThreadPC.done p) ∧
  (∀ (isMod : Nat → Bool) (s : SysState n),
    Relation.ReflTransGen (Step isMod) (init n) s →
    ∀ i j, s.pc i = ThreadPC.building → s.pc j = ThreadPC.building → i = j) ∧
  (∀ (isMod : Nat → Bool) (s s' : SysState n) (i : Fin n), Step isMod s s' →
    s.pc i = ThreadPC.inCrit → s'.pc i = ThreadPC.building →
    staleCond isMod s.parser) ∧
  (∀ (isMod : Nat → Bool) (s : SysState n) (i : Fin n),
    s.pc i = ThreadPC.inCrit → s.lock = Option.some i →
    staleCond isMod s.parser →
    Step isMod s { s with pc := Function.update s.pc i ThreadPC.building }) ∧
  (∀ (isMod : Nat → Bool) (s : SysState n) (i : Fin n) (p : Nat),
    s.pc i = ThreadPC.inCrit → s.lock = Option.some i →
    s.parser = Option.some p → isMod p = false →
    Step isMod s { s with pc := Function.update s.pc i (ThreadPC.releasing p) })

/-!  Concrete inputs used by the witnesses. -/

/-- A concrete environment: ratio 1/2 (the value the source's comment
ascribes to ICELANDIC_RATIO), identity space normalization, and external
engines that append nothing. -/
def envW : Env :=
  ⟨1 / 2, id, fun _ _ => [], fun _ _ => []⟩

/-- A recognized word token. -/
def wTok : Token := ⟨TokKind.word, "bók", 1, true, false, "", 1, ""⟩

/-- An unrecognized word token. -/
def xTok : Token := ⟨TokKind.word, "zzz", 0, true, false, "", 1, ""⟩

/-- A recognized word token carrying a spelling-error code. -/
def eTok : Token := ⟨TokKind.word, "vilja", 1, true, true, "S001", 1, "stafsetning"⟩

/-- A token violating the upstream contract: it exposes error metadata but
is not a CorrectToken. -/
def badTok : Token := ⟨TokKind.word, "brot", 1, false, true, "X001", 1, "brot"⟩

/-- Mostly-foreign sentence: 3 word-like tokens, 1 recognized. -/
def sentE004 : Sentence :=
  ⟨[xTok, ⟨TokKind.word, "qqq", 0, true, true, "U001", 1, "óþekkt"⟩, wTok],
    Option.none, Option.none⟩

/-- Unparseable 5-token Icelandic sentence with `err_index = 0` and one
token-level annotation. -/
def sentE001 : Sentence :=
  ⟨[eTok, wTok, wTok, wTok, wTok], Option.none, Option.some 0⟩

/-- Successfully parsed sentence with one token-level annotation. -/
def sentOk : Sentence :=
  ⟨[wTok, eTok, wTok], Option.some (), Option.none⟩

/-- Sentence containing a contract-violating token. -/
def sentBad : Sentence :=
  ⟨[wTok, badTok], Option.none, Option.none⟩

/-- A concrete external strictly-impersonal registry: only "daga" has a
registered erroneous-subject-case correction. -/
def pW : String → Bool := fun v => v == "daga"

/-- A concrete accepted-subject table. -/
def vsW : List (String × List String) := [("hlakka", ["nf"])]

/-- A concrete erroneous-subject table. -/
def vesW : List (String × List String) := [("hlakka", ["þf", "þgf"])]

/-! ## Lemmas about the token scan -/

theorem scanStep_ok (ix : Nat) (t : Token) (st : ScanState)
    (h : t.hasErrorAttr = true → t.isCorrect = true) :
    scanStep ix t st = Except.ok
      ⟨st.ann ++ (if t.hasErrorAttr = true ∧ t.errorCode ≠ "" then [tokErrAnnot ix t] else []),
        st.wordsInBin + wibOne t, st.wordsNotInBin + wnbOne t⟩ := by
  obtain ⟨a, wib, wnb⟩ := st
  cases ha : t.hasErrorAttr with
  | false =>
    simp only [scanStep, ha, Bool.false_eq_true, if_false, false_and, List.append_nil]
    cases hk : t.kind <;>
      simp [wibOne, wnbOne, hk] <;>
      by_cases hv : t.val = 0 <;> simp [hv]
  | true =>
    have hc : t.isCorrect = true := h ha
    simp only [scanStep, ha, hc, if_true, true_and]
    by_cases he : t.errorCode = ""
    · simp only [he, ne_eq, not_true_eq_false, if_false]
      cases hk : t.kind <;>
        simp [wibOne, wnbOne, hk] <;>
        by_cases hv : t.val = 0 <;> simp [hv]
    · simp only [he, ne_eq, not_false_eq_true, if_true]
      cases hk : t.kind <;>
        simp [wibOne, wnbOne, hk] <;>
        by_cases hv : t.val = 0 <;> simp [hv]

theorem scanStep_err (ix : Nat) (t : Token) (st : ScanState)
    (ha : t.hasErrorAttr = true) (hc : t.isCorrect = false) :
    scanStep ix t st = Except.error assertMsg := by
  simp [scanStep, ha, hc]

theorem scanLoop_ok (ts : List Token) : ∀ (ix : Nat) (st : ScanState),
    (∀ t ∈ ts, t.hasErrorAttr = true → t.isCorrect = true) →
    scanLoop ix ts st = Except.ok
      ⟨st.ann ++ scanAnnotsFrom ix ts,
        st.wordsInBin + wordsInBinCount ts,
        st.wordsNotInBin + wordsNotInBinCount ts⟩ := by
  induction ts with
  | nil =>
    intro ix st _
    simp [scanLoop, scanAnnotsFrom, wordsInBinCount, wordsNotInBinCount]
  | cons t ts ih =>
    intro ix st h
    have ht : t.hasErrorAttr = true → t.isCorrect = true := h t (by simp)
    have htl : ∀ u ∈ ts, u.hasErrorAttr = true → u.isCorrect = true :=
      fun u hu => h u (by simp [hu])
    simp only [scanLoop]
    rw [scanStep_ok ix t st ht]
    dsimp only
    rw [ih (ix + 1) _ htl]
    simp [scanAnnotsFrom, wordsInBinCount, wordsNotInBinCount,
      List.append_assoc, Nat.add_assoc]

theorem scanLoop_err (ts : List Token) : ∀ (ix : Nat) (st : ScanState),
    (∃ t ∈ ts, t.hasErrorAttr = true ∧ t.isCorrect = false) →
    scanLoop ix ts st = Except.error assertMsg := by
  induction ts with
  | nil =>
    rintro ix st ⟨t, ht, -⟩
    exact absurd ht (List.not_mem_nil t)
  | cons t ts ih =>
    rintro ix st ⟨u, hu, ha, hc⟩
    rcases List.mem_cons.mp hu with rfl | hu'
    · simp only [scanLoop]
      rw [scanStep_err ix u st ha hc]
    · by_cases hok : t.hasErrorAttr = true ∧ t.isCorrect = false
      · simp only [scanLoop]
        rw [scanStep_err ix t st hok.1 hok.2]
      · have ht : t.hasErrorAttr = true → t.isCorrect = true := by
          intro hat
          by_contra hcf
          exact hok ⟨hat, by simpa using hcf⟩
        simp only [scanLoop]
        rw [scanStep_ok ix t st ht]
        exact ih (ix + 1) _ ⟨u, hu', ha, hc⟩

/-! ## The closed form of `annotate` -/

theorem annotate_wf (env : Env) (s : Sentence) (hwf : WellFormed s) :
    annotate env s = Except.ok ((collected env s).mergeSort annLE) := by
  unfold annotate
  rw [scanLoop_ok s.tokens 0 ⟨[], 0, 0⟩ hwf]
  unfold collected e004Cond numWords e004Annot e001Annot e001JoinedText
    e001Window e001WindowStart e001WindowStop errIndexVal scanAnnots
  simp only [List.nil_append, Nat.zero_add]
  rfl

theorem annotate_assert (env : Env) (s : Sentence)
    (hbad : ∃ t ∈ s.tokens, t.hasErrorAttr = true ∧ t.isCorrect = false) :
    annotate env s = Except.error assertMsg := by
  unfold annotate
  rw [scanLoop_err s.tokens 0 ⟨[], 0, 0⟩ hbad]

/-! ## The sort comparison -/

theorem annLE_trans (a b c : Annot) (h1 : annLE a b = true) (h2 : annLE b c = true) :
    annLE a c = true := by
  simp only [annLE, decide_eq_true_eq] at h1 h2 ⊢
  omega

theorem annLE_total (a b : Annot) : (annLE a b || annLE b a) = true := by
  simp only [annLE, Bool.or_eq_true, decide_eq_true_eq]
  omega

/-! ## Membership facts about the scan annotations -/

theorem scanAnnotsFrom_detail (ts : List Token) : ∀ (ix : Nat) (a : Annot),
    a ∈ scanAnnotsFrom ix ts → a.detail = Detail.none := by
  induction ts with
  | nil => intro ix a ha; simp [scanAnnotsFrom] at ha
  | cons t ts ih =>
    intro ix a ha
    rw [scanAnnotsFrom] at ha
    rcases List.mem_append.mp ha with hh | htl
    · by_cases he : t.hasErrorAttr = true ∧ t.errorCode ≠ ""
      · rw [if_pos he] at hh
        rw [List.mem_singleton.mp hh]
        rfl
      · rw [if_neg he] at hh
        exact absurd hh (List.not_mem_nil a)
    · exact ih (ix + 1) a htl

theorem scanAnnotsFrom_start_ge (ts : List Token) : ∀ (ix : Nat) (a : Annot),
    a ∈ scanAnnotsFrom ix ts → (ix : Int) ≤ a.start := by
  induction ts with
  | nil => intro ix a ha; simp [scanAnnotsFrom] at ha
  | cons t ts ih =>
    intro ix a ha
    rw [scanAnnotsFrom] at ha
    rcases List.mem_append.mp ha with hh | htl
    · by_cases he : t.hasErrorAttr = true ∧ t.errorCode ≠ ""
      · rw [if_pos he] at hh
        rw [List.mem_singleton.mp hh]
        exact le_refl _
      · rw [if_neg he] at hh
        exact absurd hh (List.not_mem_nil a)
    · have := ih (ix + 1) a htl
      have hle : (ix : Int) ≤ ((ix + 1 : Nat) : Int) := by
        push_cast
        omega
      exact hle.trans this

/-! ## Claim theorems -/

/-- C1: for every sentence handed to `annotate` (with well-formed tokens,
so that the scan's assert does not abort), exactly one of the E004 path,
the E001 path and the successful-parse path executes, and the token-level
annotations of the initial scan appear in the returned list in every path
except the E004 path, which returns the E004 annotation alone. -/
theorem annotate_three_paths (env : Env) (s : Sentence) (hwf : WellFormed s) :
    ((e004Cond env s ∨ e001Path env s ∨ successPath env s) ∧
      ¬(e004Cond env s ∧ e001Path env s) ∧
      ¬(e004Cond env s ∧ successPath env s) ∧
      ¬(e001Path env s ∧ successPath env s)) ∧
    ∃ l, annotate env s = Except.ok l ∧
      (e004Cond env s → l = [e004Annot s]) ∧
      (¬e004Cond env s → (scanAnnots s).Subperm l) := by
  constructor
  · refine ⟨?_, fun h => h.2.1 h.1, fun h => h.2.1 h.1, fun h => h.2.2 h.1.2⟩
    by_cases h4 : e004Cond env s
    · exact Or.inl h4
    · by_cases ht : s.deepTree = Option.none
      · exact Or.inr (Or.inl ⟨h4, ht⟩)
      · exact Or.inr (Or.inr ⟨h4, ht⟩)
  · refine ⟨(collected env s).mergeSort annLE, annotate_wf env s hwf, ?_, ?_⟩
    · intro h4
      have hc : collected env s = [e004Annot s] := by
        unfold collected
        rw [if_pos h4]
      rw [hc]
      exact List.perm_singleton.mp (List.mergeSort_perm _ _)
    · intro h4
      have hsub : (scanAnnots s).Sublist (collected env s) := by
        unfold collected
        rw [if_neg h4]
        by_cases ht : s.deepTree = Option.none
        · rw [if_pos ht]
          exact List.sublist_append_left _ _
        · rw [if_neg ht]
          exact (List.sublist_append_left _ _).trans (List.sublist_append_left _ _)
      exact hsub.subperm.trans (List.mergeSort_perm _ _).symm.subperm

/-- C2: `annotate` returns the single whole-sentence E004 annotation
(spanning tokens 0 through length − 1, all scan annotations discarded) iff
`total > 2` and `recognized / total` is below the configured ratio; a
sentence with exactly 2 word-like tokens never yields it, and the E004
detail reports the percentage `unrecognized / total × 100`. -/
theorem annotate_e004_iff (env : Env) (s : Sentence) (hwf : WellFormed s)
    (hhooks : HookCodesOk env) :
    (annotate env s = Except.ok [e004Annot s] ↔ e004Cond env s) ∧
    (numWords s = 2 → annotate env s ≠ Except.ok [e004Annot s]) ∧
    (e004Annot s).start = 0 ∧
    (e004Annot s).endTok = (s.tokens.length : Int) - 1 ∧
    (e004Annot s).detail =
      Detail.e004 ((wordsNotInBinCount s.tokens : ℚ) / (numWords s : ℚ) * 100) := by
  have hiff : annotate env s = Except.ok [e004Annot s] ↔ e004Cond env s := by
    constructor
    · intro heq
      by_contra h4
      rw [annotate_wf env s hwf] at heq
      have hms : (collected env s).mergeSort annLE = [e004Annot s] :=
        Except.ok.inj heq
      have hcoll : collected env s = [e004Annot s] := by
        have hp := List.mergeSort_perm (collected env s) annLE
        rw [hms] at hp
        exact List.perm_singleton.mp hp.symm
      have hmem : e004Annot s ∈ collected env s := by
        rw [hcoll]
        exact List.mem_singleton_self _
      by_cases ht : s.deepTree = Option.none
      · have hc : collected env s = scanAnnots s ++ [e001Annot env s] := by
          unfold collected
          rw [if_neg h4, if_pos ht]
        have hmem1 : e001Annot env s ∈ collected env s := by
          rw [hc]
          exact List.mem_append_right _ (List.mem_singleton_self _)
        rw [hcoll] at hmem1
        have heq1 : e001Annot env s = e004Annot s := List.mem_singleton.mp hmem1
        have : ("E001" : String) = "E004" := congrArg Annot.code heq1
        exact absurd this (by decide)
      · have hc : collected env s =
            (scanAnnots s ++ env.errorFinder (scanAnnots s) s) ++
              env.patternMatcher (scanAnnots s ++ env.errorFinder (scanAnnots s) s) s := by
          unfold collected
          rw [if_neg h4, if_neg ht]
        rw [hc] at hmem
        rcases List.mem_append.mp hmem with hm1 | hm3
        · rcases List.mem_append.mp hm1 with hm1a | hm1b
          · have := scanAnnotsFrom_detail s.tokens 0 _ hm1a
            exact absurd this (by simp [e004Annot])
          · exact absurd rfl (hhooks.1 _ _ _ hm1b)
        · exact absurd rfl (hhooks.2 _ _ _ hm3)
    · intro h4
      rw [annotate_wf env s hwf]
      have hc : collected env s = [e004Annot s] := by
        unfold collected
        rw [if_pos h4]
      rw [hc]
      exact congrArg Except.ok (List.perm_singleton.mp (List.mergeSort_perm _ _))
  refine ⟨hiff, ?_, rfl, rfl, rfl⟩
  intro h2 heq
  have h4 := hiff.mp heq
  unfold e004Cond at h4
  rw [h2] at h4
  exact absurd h4.1 (by decide)

/-- C3: when the E004 guard did not fire and there is no deep parse tree,
`annotate` keeps the scan annotations and appends exactly one E001
annotation spanning tokens 0 through length − 1, whose detail quotes the
whitespace-normalized text of the token window
`[max(0, errIndex − 1), min(tokenCount, errIndex + 2))`. -/
theorem annotate_e001_parse_failure (env : Env) (s : Sentence) (hwf : WellFormed s)
    (h4 : ¬e004Cond env s) (ht : s.deepTree = Option.none) :
    ∃ l, annotate env s = Except.ok l ∧
      l.Perm (scanAnnots s ++ [e001Annot env s]) ∧
      (e001Annot env s).start = 0 ∧
      (e001Annot env s).endTok = (s.tokens.length : Int) - 1 ∧
      (e001Annot env s).code = "E001" ∧
      (e001Annot env s).detail =
        Detail.e001 (errIndexVal s + 1) (env.correctSpaces (e001JoinedText s)) ∧
      e001JoinedText s =
        String.intercalate " " (((e001Window s).filter fun t => t.txt != "").map Token.txt) ∧
      e001Window s = (s.tokens.drop (max 0 (errIndexVal s - 1))).take
        (min s.tokens.length (errIndexVal s + 2) - max 0 (errIndexVal s - 1)) := by
  refine ⟨_, annotate_wf env s hwf, ?_, rfl, rfl, rfl, rfl, rfl, rfl⟩
  have hc : collected env s = scanAnnots s ++ [e001Annot env s] := by
    unfold collected
    rw [if_neg h4, if_pos ht]
  rw [hc]
  exact List.mergeSort_perm _ _

/-- C4: the returned list is sorted ascending by start index with ties
between equal starts broken by descending end index, and it is a
permutation of everything collected: after the E004 guard declines, no
annotation is removed (the scan annotations are contained in the collected
list). -/
theorem annotate_sorted (env : Env) (s : Sentence) (hwf : WellFormed s) :
    ∃ l, annotate env s = Except.ok l ∧
      l.Pairwise (fun a b => a.start < b.start ∨ (a.start = b.start ∧ b.endTok ≤ a.endTok)) ∧
      l.Perm (collected env s) ∧
      (¬e004Cond env s → (scanAnnots s).Subperm (collected env s)) := by
  refine ⟨_, annotate_wf env s hwf, ?_, List.mergeSort_perm _ _, ?_⟩
  · have hp := List.sorted_mergeSort annLE_trans annLE_total (collected env s)
    exact hp.imp fun h => by simpa [annLE, decide_eq_true_eq] using h
  · intro h4
    unfold collected
    rw [if_neg h4]
    by_cases ht : s.deepTree = Option.none
    · rw [if_pos ht]
      exact (List.sublist_append_left _ _).subperm
    · rw [if_neg ht]
      exact ((List.sublist_append_left _ _).trans (List.sublist_append_left _ _)).subperm

/-- The scan annotations starting at a given token index: exactly the one
generated by that token when it carries an error code, none otherwise. -/
theorem scanAnnotsFrom_filter_start (ts : List Token) : ∀ (off k : Nat) (hk : k < ts.length),
    (scanAnnotsFrom off ts).filter (fun a => a.start == ((off + k : Nat) : Int)) =
      (if (ts.get ⟨k, hk⟩).hasErrorAttr = true ∧ (ts.get ⟨k, hk⟩).errorCode ≠ "" then
        [tokErrAnnot (off + k) (ts.get ⟨k, hk⟩)] else []) := by
  induction ts with
  | nil => intro off k hk; exact absurd hk (by simp)
  | cons t ts ih =>
    intro off k hk
    rw [scanAnnotsFrom, List.filter_append]
    have htail_ge := scanAnnotsFrom_start_ge ts (off + 1)
    cases k with
    | zero =>
      have htail : (scanAnnotsFrom (off + 1) ts).filter
          (fun a => a.start == ((off + 0 : Nat) : Int)) = [] := by
        rw [List.filter_eq_nil_iff]
        intro a ha
        have := htail_ge a ha
        simp only [beq_iff_eq]
        intro hs
        rw [hs] at this
        have : (off + 1 : Nat) ≤ (off + 0 : Nat) := by exact_mod_cast this
        omega
      rw [htail, List.append_nil]
      show _ = (if t.hasErrorAttr = true ∧ t.errorCode ≠ "" then
        [tokErrAnnot (off + 0) t] else [])
      by_cases he : t.hasErrorAttr = true ∧ t.errorCode ≠ ""
      · rw [if_pos he, if_pos he]
        simp [tokErrAnnot]
      · rw [if_neg he, if_neg he]
        rfl
    | succ j =>
      have hhead : (if t.hasErrorAttr = true ∧ t.errorCode ≠ "" then
          [tokErrAnnot off t] else []).filter
          (fun a => a.start == ((off + (j + 1) : Nat) : Int)) = [] := by
        by_cases he : t.hasErrorAttr = true ∧ t.errorCode ≠ ""
        · rw [if_pos he]
          simp only [List.filter_cons, List.filter_nil, tokErrAnnot, beq_iff_eq]
          rw [if_neg ?_]
          intro hc
          have : (off : Nat) = (off + (j + 1) : Nat) := by exact_mod_cast hc
          omega
        · rw [if_neg he]
          rfl
      rw [hhead, List.nil_append]
      have hkey : ((off + (j + 1) : Nat) : Int) = (((off + 1) + j : Nat) : Int) := by
        push_cast
        omega
      have hget : (t :: ts).get ⟨j + 1, hk⟩ = ts.get ⟨j, by simpa using hk⟩ := rfl
      rw [hget]
      have := ih (off + 1) j (by simpa using hk)
      simp only [hkey]
      rw [this]
      have hidx : (off + 1) + j = off + (j + 1) := by omega
      rw [hidx]

/-- C9: a token exposing error metadata while not being a CorrectToken
makes `annotate` fail the assertion; conversely, in a well-formed sentence
every token carrying a non-empty error code yields exactly one scan
annotation, which spans `[index, index + span − 1]` and carries that
token's code and description. -/
theorem annotate_assert_and_token_annots (env : Env) (s : Sentence) :
    ((∃ t ∈ s.tokens, t.hasErrorAttr = true ∧ t.isCorrect = false) →
      annotate env s = Except.error assertMsg) ∧
    (WellFormed s → ∀ (k : Nat) (hk : k < s.tokens.length),
      (s.tokens.get ⟨k, hk⟩).hasErrorAttr = true →
      (s.tokens.get ⟨k, hk⟩).errorCode ≠ "" →
      (scanAnnots s).filter (fun a => a.start == (k : Int)) =
        [tokErrAnnot k (s.tokens.get ⟨k, hk⟩)]) ∧
    (∀ (k : Nat) (t : Token),
      (tokErrAnnot k t).start = (k : Int) ∧
      (tokErrAnnot k t).endTok = (k : Int) + (t.errorSpan : Int) - 1 ∧
      (tokErrAnnot k t).code = t.errorCode ∧
      (tokErrAnnot k t).text = t.errorDescription) := by
  refine ⟨annotate_assert env s, ?_, fun k t => ⟨rfl, rfl, rfl, rfl⟩⟩
  intro _hwf k hk ha he
  have h := scanAnnotsFrom_filter_start s.tokens 0 k hk
  rw [if_pos ⟨ha, he⟩] at h
  simpa [scanAnnots] using h

/-- C10: an absent error index and an error index of 0 are
indistinguishable: `annotate` returns the same result for both, the
effective error index is 0 in both cases, the E001 detail window is
`[0, min(tokenCount, 2))` and the reported failure position is token
number 1. -/
theorem annotate_errIndex_none_eq_zero (env : Env) (toks : List Token) :
    annotate env ⟨toks, Option.none, Option.none⟩ =
      annotate env ⟨toks, Option.none, Option.some 0⟩ ∧
    errIndexVal ⟨toks, Option.none, Option.none⟩ = 0 ∧
    errIndexVal ⟨toks, Option.none, Option.some 0⟩ = 0 ∧
    e001Annot env ⟨toks, Option.none, Option.none⟩ =
      e001Annot env ⟨toks, Option.none, Option.some 0⟩ ∧
    e001Window ⟨toks, Option.none, Option.none⟩ = toks.take (min toks.length 2) ∧
    (e001Annot env ⟨toks, Option.none, Option.none⟩).detail =
      Detail.e001 1 (env.correctSpaces (String.intercalate " "
        (((toks.take (min toks.length 2)).filter fun t => t.txt != "").map Token.txt))) := by
  have hwin : e001Window ⟨toks, Option.none, Option.none⟩ = toks.take (min toks.length 2) := by
    unfold e001Window e001WindowStart e001WindowStop errIndexVal pyOrZero
    simp
  refine ⟨by rfl, rfl, rfl, by rfl, hwin, ?_⟩
  show Detail.e001 (errIndexVal ⟨toks, Option.none, Option.none⟩ + 1)
      (env.correctSpaces (e001JoinedText ⟨toks, Option.none, Option.none⟩)) = _
  rw [show errIndexVal ⟨toks, Option.none, Option.none⟩ = 0 from rfl]
  unfold e001JoinedText
  rw [hwin]

/-- C5: `verb_is_strictly_impersonal` is true exactly when the form
carries the impersonal "OP" marker and the external registry predicate is
false for the verb; when an erroneous-subject-case correction is
registered (the predicate holds), it returns false so the error can be
flagged instead of blocking the match. -/
theorem verb_is_strictly_impersonal_iff (p : String → Bool) (verb form : String) :
    (verb_is_strictly_impersonal p verb form = true ↔
      (strContains form "OP" = true ∧ p verb = false)) ∧
    (p verb = true → verb_is_strictly_impersonal p verb form = false) := by
  cases hop : strContains form "OP" <;> cases hp : p verb <;>
    simp [verb_is_strictly_impersonal, hop, hp]

/-- C6: `verb_cannot_be_impersonal` is true iff the form string contains
an imperative ("BH"), infinitive ("NH") or plural ("FT") marker — any one
or any combination — and its result depends neither on the verb argument
nor on any other content of the form. -/
theorem verb_cannot_be_impersonal_iff (verb form : String) :
    (verb_cannot_be_impersonal verb form = true ↔
      (strContains form "BH" = true ∨ strContains form "NH" = true ∨
        strContains form "FT" = true)) ∧
    (∀ verb2, verb_cannot_be_impersonal verb form = verb_cannot_be_impersonal verb2 form) ∧
    (∀ form2, strContains form2 "BH" = strContains form "BH" →
      strContains form2 "NH" = strContains form "NH" →
      strContains form2 "FT" = strContains form "FT" →
      verb_cannot_be_impersonal verb form2 = verb_cannot_be_impersonal verb form) := by
  refine ⟨?_, fun _ => rfl, ?_⟩
  · simp [verb_cannot_be_impersonal, List.any_cons, List.any_nil]
  · intro form2 h1 h2 h3
    simp [verb_cannot_be_impersonal, List.any_cons, List.any_nil, h1, h2, h3]

/-- C7: `verb_subject_matches` is true iff the subject case belongs to the
verb's accepted-subject set or its known-erroneous-subject set, where an
unregistered verb has empty sets (so the result is false), with exact,
unnormalized string lookup; in particular for "hlakka" and "þgf". -/
theorem verb_subject_matches_iff (vs ves : List (String × List String))
    (verb subj : String) :
    (verb_subject_matches vs ves verb subj = true ↔
      (subj ∈ dictGet vs verb ∨ subj ∈ dictGet ves verb)) ∧
    (vs.find? (fun p => p.1 == verb) = Option.none →
      ves.find? (fun p => p.1 == verb) = Option.none →
      verb_subject_matches vs ves verb subj = false) ∧
    (verb_subject_matches vs ves "hlakka" "þgf" = true ↔
      ("þgf" ∈ dictGet vs "hlakka" ∨ "þgf" ∈ dictGet ves "hlakka")) := by
  refine ⟨?_, ?_, ?_⟩
  · simp [verb_subject_matches]
  · intro h1 h2
    simp [verb_subject_matches, dictGet, h1, h2]
  · simp [verb_subject_matches]

/-! ## Parser lifecycle: invariants of the interleaving system -/

theorem lockInv_init (n : Nat) : LockInv (init n) := by
  intro i h
  simp [init, holdsLock] at h

theorem lockInv_step {n : Nat} {isMod : Nat → Bool} {s s' : SysState n}
    (hs : Step isMod s s') (hinv : LockInv s) : LockInv s' := by
  cases hs with
  | acquire i hpc hl =>
    intro j hj
    dsimp only at hj ⊢
    by_cases hij : j = i
    · subst hij
      rfl
    · rw [Function.update_noteq hij] at hj
      have := hinv j hj
      rw [hl] at this
      exact absurd this (by simp)
  | checkBuild i hpc hl hstale =>
    intro j hj
    dsimp only at hj ⊢
    by_cases hij : j = i
    · subst hij
      exact hl
    · rw [Function.update_noteq hij] at hj
      exact hinv j hj
  | checkReuse i p hpc hl hp hmod =>
    intro j hj
    dsimp only at hj ⊢
    by_cases hij : j = i
    · subst hij
      exact hl
    · rw [Function.update_noteq hij] at hj
      exact hinv j hj
  | build i hpc hl =>
    intro j hj
    dsimp only at hj ⊢
    by_cases hij : j = i
    · subst hij
      exact hl
    · rw [Function.update_noteq hij] at hj
      exact hinv j hj
  | release i v hpc hl =>
    intro j hj
    dsimp only at hj ⊢
    by_cases hij : j = i
    · subst hij
      rw [Function.update_same] at hj
      exact absurd hj (by simp [holdsLock])
    · rw [Function.update_noteq hij] at hj
      have := hinv j hj
      rw [hl] at this
      have hij' : j = i := Option.some.inj this.symm
      exact absurd hij' hij

theorem lockInv_reach {n : Nat} {isMod : Nat → Bool} {s : SysState n}
    (h : Relation.ReflTransGen (Step isMod) (init n) s) : LockInv s := by
  induction h with
  | refl => exact lockInv_init n
  | tail _ hstep ih => exact lockInv_step hstep ih

theorem buildInv_init (n : Nat) : BuildInv (init n) := by
  refine ⟨lockInv_init n, ?_, ?_, ?_, fun _ => rfl, ?_⟩
  · intro i h
    simp [init] at h
  · intro i v h
    simp [init] at h
  · intro i v h
    simp [init] at h
  · intro p hp
    simp [init] at hp

theorem buildInv_step {n : Nat} {s s' : SysState n}
    (hs : Step neverMod s s') (h : BuildInv s) : BuildInv s' := by
  have hlock := lockInv_step hs h.lockOwner
  cases hs with
  | acquire i hpc hl =>
    refine ⟨hlock, ?_, ?_, ?_, h.builtNone, h.builtSome⟩
    · intro j hj
      dsimp only at hj ⊢
      by_cases hij : j = i
      · subst hij
        rw [Function.update_same] at hj
        exact absurd hj (by simp)
      · rw [Function.update_noteq hij] at hj
        exact h.buildingNone j hj
    · intro j v hj
      dsimp only at hj ⊢
      by_cases hij : j = i
      · subst hij
        rw [Function.update_same] at hj
        exact absurd hj (by simp)
      · rw [Function.update_noteq hij] at hj
        exact h.releasingVal j v hj
    · intro j v hj
      dsimp only at hj ⊢
      by_cases hij : j = i
      · subst hij
        rw [Function.update_same] at hj
        exact absurd hj (by simp)
      · rw [Function.update_noteq hij] at hj
        exact h.doneVal j v hj
  | checkBuild i hpc hl hstale =>
    have hnone : s.parser = Option.none := by
      rcases hstale with h0 | ⟨q, hq, hmq⟩
      · exact h0
      · exact absurd hmq (by simp [neverMod])
    refine ⟨hlock, fun _ _ => hnone, ?_, ?_, h.builtNone, h.builtSome⟩
    · intro j v hj
      dsimp only at hj ⊢
      by_cases hij : j = i
      · subst hij
        rw [Function.update_same] at hj
        exact absurd hj (by simp)
      · rw [Function.update_noteq hij] at hj
        exact h.releasingVal j v hj
    · intro j v hj
      dsimp only at hj ⊢
      by_cases hij : j = i
      · subst hij
        rw [Function.update_same] at hj
        exact absurd hj (by simp)
      · rw [Function.update_noteq hij] at hj
        exact h.doneVal j v hj
  | checkReuse i p hpc hl hp hmod =>
    refine ⟨hlock, ?_, ?_, ?_, h.builtNone, h.builtSome⟩
    · intro j hj
      dsimp only at hj ⊢
      by_cases hij : j = i
      · subst hij
        rw [Function.update_same] at hj
        exact absurd hj (by simp)
      · rw [Function.update_noteq hij] at hj
        exact h.buildingNone j hj
    · intro j v hj
      dsimp only at hj ⊢
      by_cases hij : j = i
      · subst hij
        rw [Function.update_same] at hj
        have hv : v = p := (ThreadPC.releasing.inj hj).symm
        rw [hv]
        exact hp
      · rw [Function.update_noteq hij] at hj
        exact h.releasingVal j v hj
    · intro j v hj
      dsimp only at hj ⊢
      by_cases hij : j = i
      · subst hij
        rw [Function.update_same] at hj
        exact absurd hj (by simp)
      · rw [Function.update_noteq hij] at hj
        exact h.doneVal j v hj
  | build i hpc hl =>
    have hnone : s.parser = Option.none := h.buildingNone i hpc
    have hb0 : s.built = 0 := h.builtNone hnone
    refine ⟨hlock, ?_, ?_, ?_, ?_, ?_⟩
    · intro j hj
      dsimp only at hj ⊢
      by_cases hij : j = i
      · subst hij
        rw [Function.update_same] at hj
        exact absurd hj (by simp)
      · rw [Function.update_noteq hij] at hj
        have h1 := h.lockOwner j (by rw [hj]; rfl)
        have h2 := h.lockOwner i (by rw [hpc]; rfl)
        rw [h1] at h2
        exact absurd (Option.some.inj h2) hij
    · intro j v hj
      dsimp only at hj ⊢
      by_cases hij : j = i
      · subst hij
        rw [Function.update_same] at hj
        have hv : v = s.nextId := (ThreadPC.releasing.inj hj).symm
        rw [hv]
      · rw [Function.update_noteq hij] at hj
        have := h.releasingVal j v hj
        rw [hnone] at this
        exact absurd this (by simp)
    · intro j v hj
      dsimp only at hj ⊢
      by_cases hij : j = i
      · subst hij
        rw [Function.update_same] at hj
        exact absurd hj (by simp)
      · rw [Function.update_noteq hij] at hj
        have := h.doneVal j v hj
        rw [hnone] at this
        exact absurd this (by simp)
    · intro hp
      exact absurd hp (by simp)
    · intro p hp
      rw [hb0]
  | release i v hpc hl =>
    refine ⟨hlock, ?_, ?_, ?_, h.builtNone, h.builtSome⟩
    · intro j hj
      dsimp only at hj ⊢
      by_cases hij : j = i
      · subst hij
        rw [Function.update_same] at hj
        exact absurd hj (by simp)
      · rw [Function.update_noteq hij] at hj
        exact h.buildingNone j hj
    · intro j w hj
      dsimp only at hj ⊢
      by_cases hij : j = i
      · subst hij
        rw [Function.update_same] at hj
        exact absurd hj (by simp)
      · rw [Function.update_noteq hij] at hj
        exact h.releasingVal j w hj
    · intro j w hj
      dsimp only at hj ⊢
      by_cases hij : j = i
      · subst hij
        rw [Function.update_same] at hj
        have hw : w = v := (ThreadPC.done.inj hj).symm
        rw [hw]
        exact h.releasingVal j v hpc
      · rw [Function.update_noteq hij] at hj
        exact h.doneVal j w hj

theorem buildInv_reach {n : Nat} {s : SysState n}
    (h : Relation.ReflTransGen (Step neverMod) (init n) s) : BuildInv s := by
  induction h with
  | refl => exact buildInv_init n
  | tail _ hstep ih => exact buildInv_step hstep ih

/-- C8: for N concurrent first-time callers of the `parser` accessor,
exactly one construction occurs and every finished caller observes the
same singleton instance; at most one thread is ever mid-construction; and
the check rebuilds exactly when no instance exists or the existing
instance reports its grammar as modified. -/
theorem getParser_contract (n : Nat) (hn : 0 < n) : GetParserContract n := by
  refine ⟨?_, ?_, ?_, ?_, ?_⟩
  · intro s hreach hdone
    have hinv := buildInv_reach hreach
    obtain ⟨v0, hv0⟩ := hdone ⟨0, hn⟩
    have hp0 := hinv.doneVal _ _ hv0
    refine ⟨hinv.builtSome v0 hp0, v0, fun i => ?_⟩
    obtain ⟨v, hv⟩ := hdone i
    have hpv := hinv.doneVal _ _ hv
    rw [hp0] at hpv
    rw [← Option.some.inj hpv] at hv
    exact hv
  · intro isMod s hreach i j hi hj
    have hinv := lockInv_reach hreach
    have h1 := hinv i (by rw [hi]; rfl)
    have h2 := hinv j (by rw [hj]; rfl)
    rw [h1] at h2
    exact Option.some.inj h2
  · intro isMod s s' i hstep hi hb
    cases hstep with
    | acquire j hpc hl =>
      dsimp only at hb
      by_cases hij : i = j
      · subst hij
        rw [Function.update_same] at hb
        exact absurd hb (by simp)
      · rw [Function.update_noteq hij] at hb
        rw [hi] at hb
        exact absurd hb (by simp)
    | checkBuild j hpc hl hstale =>
      exact hstale
    | checkReuse j p hpc hl hp hmod =>
      dsimp only at hb
      by_cases hij : i = j
      · subst hij
        rw [Function.update_same] at hb
        exact absurd hb (by simp)
      · rw [Function.update_noteq hij] at hb
        rw [hi] at hb
        exact absurd hb (by simp)
    | build j hpc hl =>
      dsimp only at hb
      by_cases hij : i = j
      · subst hij
        rw [hi] at hpc
        exact absurd hpc (by simp)
      · rw [Function.update_noteq hij] at hb
        rw [hi] at hb
        exact absurd hb (by simp)
    | release j v hpc hl =>
      dsimp only at hb
      by_cases hij : i = j
      · subst hij
        rw [Function.update_same] at hb
        exact absurd hb (by simp)
      · rw [Function.update_noteq hij] at hb
        rw [hi] at hb
        exact absurd hb (by simp)
  · intro isMod s i hpc hl hstale
    exact Step.checkBuild i hpc hl hstale
  · intro isMod s i p hpc hl hp hmod
    exact Step.checkReuse i p hpc hl hp hmod

/-- A complete single-thread execution: the accessor can actually be run
from the initial state to a state in which the caller is done, so the
first-call contract is not vacuous. -/
theorem getParser_run_exists :
    ∃ s : SysState 1, Relation.ReflTransGen (Step neverMod) (init 1) s ∧
      (∀ i, ∃ v, s.pc i = ThreadPC.done v) ∧ s.built = 1 := by
  refine ⟨_, Relation.ReflTransGen.tail (Relation.ReflTransGen.tail
    (Relation.ReflTransGen.tail (Relation.ReflTransGen.tail Relation.ReflTransGen.refl
      (Step.acquire (0 : Fin 1) rfl rfl))
      (Step.checkBuild (0 : Fin 1) rfl rfl (Or.inl rfl)))
      (Step.build (0 : Fin 1) rfl rfl))
      (Step.release (0 : Fin 1) 0 rfl rfl), ?_, rfl⟩
  intro i
  refine ⟨0, ?_⟩
  have hi : i = (0 : Fin 1) := by
    omega
  rw [hi]
  rfl

/-! ## Witness helpers -/

theorem hookCodesOk_envW : HookCodesOk envW := by
  constructor <;> intro ann s a ha <;> simp [envW] at ha

theorem e004Cond_sentE004 : e004Cond envW sentE004 := by
  refine ⟨by decide, ?_⟩
  rw [show wordsInBinCount sentE004.tokens = 1 from rfl,
    show numWords sentE004 = 3 from rfl]
  norm_num [envW]

theorem not_e004Cond_sentE001 : ¬e004Cond envW sentE001 := by
  intro hc
  have h2 := hc.2
  rw [show wordsInBinCount sentE001.tokens = 5 from rfl,
    show numWords sentE001 = 5 from rfl] at h2
  norm_num [envW] at h2

/-! ## Witnesses -/

/-- Witness for C1 at a concrete successfully parsed sentence. -/
theorem annotate_three_paths_witness :
    WellFormed sentOk ∧
    (((e004Cond envW sentOk ∨ e001Path envW sentOk ∨ successPath envW sentOk) ∧
      ¬(e004Cond envW sentOk ∧ e001Path envW sentOk) ∧
      ¬(e004Cond envW sentOk ∧ successPath envW sentOk) ∧
      ¬(e001Path envW sentOk ∧ successPath envW sentOk)) ∧
    ∃ l, annotate envW sentOk = Except.ok l ∧
      (e004Cond envW sentOk → l = [e004Annot sentOk]) ∧
      (¬e004Cond envW sentOk → (scanAnnots sentOk).Subperm l)) :=
  ⟨by decide, annotate_three_paths envW sentOk (by decide)⟩

/-- Witness for C2 at a concrete mostly-foreign sentence (3 word-like
tokens, 1 recognized), where the guard fires. -/
theorem annotate_e004_iff_witness :
    WellFormed sentE004 ∧ HookCodesOk envW ∧ e004Cond envW sentE004 ∧
    ((annotate envW sentE004 = Except.ok [e004Annot sentE004] ↔ e004Cond envW sentE004) ∧
      (numWords sentE004 = 2 → annotate envW sentE004 ≠ Except.ok [e004Annot sentE004]) ∧
      (e004Annot sentE004).start = 0 ∧
      (e004Annot sentE004).endTok = (sentE004.tokens.length : Int) - 1 ∧
      (e004Annot sentE004).detail = Detail.e004
        ((wordsNotInBinCount sentE004.tokens : ℚ) / (numWords sentE004 : ℚ) * 100)) :=
  ⟨by decide, hookCodesOk_envW, e004Cond_sentE004,
    annotate_e004_iff envW sentE004 (by decide) hookCodesOk_envW⟩

/-- Witness for C3 at a concrete unparseable 5-token sentence with
`err_index = 0`: the quoted window is tokens `[0, 2)`. -/
theorem annotate_e001_parse_failure_witness :
    WellFormed sentE001 ∧ ¬e004Cond envW sentE001 ∧ sentE001.deepTree = Option.none ∧
    sentE001.tokens.length = 5 ∧ errIndexVal sentE001 = 0 ∧
    e001Window sentE001 = [eTok, wTok] ∧
    (∃ l, annotate envW sentE001 = Except.ok l ∧
      l.Perm (scanAnnots sentE001 ++ [e001Annot envW sentE001]) ∧
      (e001Annot envW sentE001).start = 0 ∧
      (e001Annot envW sentE001).endTok = (sentE001.tokens.length : Int) - 1 ∧
      (e001Annot envW sentE001).code = "E001" ∧
      (e001Annot envW sentE001).detail = Detail.e001 (errIndexVal sentE001 + 1)
        (envW.correctSpaces (e001JoinedText sentE001)) ∧
      e001JoinedText sentE001 = String.intercalate " "
        (((e001Window sentE001).filter fun t => t.txt != "").map Token.txt) ∧
      e001Window sentE001 = (sentE001.tokens.drop (max 0 (errIndexVal sentE001 - 1))).take
        (min sentE001.tokens.length (errIndexVal sentE001 + 2) -
          max 0 (errIndexVal sentE001 - 1))) :=
  ⟨by decide, not_e004Cond_sentE001, rfl, rfl, rfl, by decide,
    annotate_e001_parse_failure envW sentE001 (by decide) not_e004Cond_sentE001 rfl⟩

/-- Witness for C4 at a concrete sentence. -/
theorem annotate_sorted_witness :
    WellFormed sentE001 ∧
    (∃ l, annotate envW sentE001 = Except.ok l ∧
      l.Pairwise (fun a b => a.start < b.start ∨ (a.start = b.start ∧ b.endTok ≤ a.endTok)) ∧
      l.Perm (collected envW sentE001) ∧
      (¬e004Cond envW sentE001 → (scanAnnots sentE001).Subperm (collected envW sentE001))) :=
  ⟨by decide, annotate_sorted envW sentE001 (by decide)⟩

/-- Witness for C5 at a concrete registry and verb form. -/
theorem verb_is_strictly_impersonal_witness :
    (verb_is_strictly_impersonal pW "hlakka" "GM-FH-OP" = true ↔
      (strContains "GM-FH-OP" "OP" = true ∧ pW "hlakka" = false)) ∧
    (pW "hlakka" = true → verb_is_strictly_impersonal pW "hlakka" "GM-FH-OP" = false) :=
  verb_is_strictly_impersonal_iff pW "hlakka" "GM-FH-OP"

/-- Witness for C6 at a concrete verb form. -/
theorem verb_cannot_be_impersonal_witness :
    (verb_cannot_be_impersonal "fara" "GM-BH-ET" = true ↔
      (strContains "GM-BH-ET" "BH" = true ∨ strContains "GM-BH-ET" "NH" = true ∨
        strContains "GM-BH-ET" "FT" = true)) ∧
    (∀ verb2, verb_cannot_be_impersonal "fara" "GM-BH-ET" =
      verb_cannot_be_impersonal verb2 "GM-BH-ET") ∧
    (∀ form2, strContains form2 "BH" = strContains "GM-BH-ET" "BH" →
      strContains form2 "NH" = strContains "GM-BH-ET" "NH" →
      strContains form2 "FT" = strContains "GM-BH-ET" "FT" →
      verb_cannot_be_impersonal "fara" form2 = verb_cannot_be_impersonal "fara" "GM-BH-ET") :=
  verb_cannot_be_impersonal_iff "fara" "GM-BH-ET"

/-- Witness for C7 at concrete tables: "þgf" is registered as an
erroneous subject case of "hlakka". -/
theorem verb_subject_matches_witness :
    ((verb_subject_matches vsW vesW "hlakka" "þgf" = true ↔
      ("þgf" ∈ dictGet vsW "hlakka" ∨ "þgf" ∈ dictGet vesW "hlakka")) ∧
      (vsW.find? (fun p => p.1 == "hlakka") = Option.none →
        vesW.find? (fun p => p.1 == "hlakka") = Option.none →
        verb_subject_matches vsW vesW "hlakka" "þgf" = false) ∧
      (verb_subject_matches vsW vesW "hlakka" "þgf" = true ↔
        ("þgf" ∈ dictGet vsW "hlakka" ∨ "þgf" ∈ dictGet vesW "hlakka"))) ∧
    verb_subject_matches vsW vesW "hlakka" "þgf" = true :=
  ⟨verb_subject_matches_iff vsW vesW "hlakka" "þgf", by decide⟩

/-- Witness for C8 with one thread. -/
theorem getParser_contract_witness : 0 < 1 ∧ GetParserContract 1 :=
  ⟨by decide, getParser_contract 1 (by decide)⟩

/-- Witness for C9: a contract-violating token aborts `annotate`, and the
error-carrying first token of a well-formed sentence yields exactly its
own annotation. -/
theorem annotate_assert_and_token_annots_witness :
    annotate envW sentBad = Except.error assertMsg ∧
    (scanAnnots sentE001).filter (fun a => a.start == (0 : Int)) = [tokErrAnnot 0 eTok] := by
  constructor
  · exact (annotate_assert_and_token_annots envW sentBad).1
      ⟨badTok, by decide, by decide, by decide⟩
  · exact (annotate_assert_and_token_annots envW sentE001).2.1
      (by decide) 0 (by decide) (by decide) (by decide)

end ReynirCorrect
